import Mathlib

/-!
Verification of the atp-rankings ingestion/reconciliation core.

Shallow embedding of the data model and operations of the repository:
  - gap-aware series builder (src/preprocess_data.py, src/data_loader.py)
  - ingestion drivers with raw-cache skip logic (src/atp_ranking_scraper.py,
    src/atp_tournament_scraper.py)
  - player-identity resolution by exact and approximate name matching
    (src/atp_scraper.py, using the semantics of Python difflib)
  - tournament event filtering (src/atp_tournament_scraper.py)
  - fetchers returning None on missing page sections (src/atp_ranking_scraper.py,
    src/atp_player_scraper.py)
  - rank-string tie-marker stripping and player prioritization
    (src/preprocess_data.py, src/atp_player_scraper.py)
  - date-of-birth extraction (src/preprocess_data.py)
  - rank interpolation for the query facade (application.py)
-/

namespace ATPRank

/-! ## Gap-aware series builder (src/preprocess_data.py, insert_nan_for_gaps) -/

/-- A single rank observation of one player: a `ranking_date` (a timestamp,
modelled as a rational number of days since the epoch, so that gap midpoints
are exact, as they are for pandas timestamps) and a `rank`, which is `none`
for synthetic gap-marker rows (NaN in the frame). -/
structure Obs where
  date : ℚ
  rank : Option ℤ
deriving DecidableEq, Repr

/-- The order "earlier or equal ranking date", used to sort observation rows. -/
def obsLe (a b : Obs) : Prop := a.date ≤ b.date

instance : DecidableRel obsLe := fun a b => inferInstanceAs (Decidable (a.date ≤ b.date))

instance : IsTotal Obs obsLe := ⟨fun a b => le_total a.date b.date⟩

instance : IsTrans Obs obsLe := ⟨fun _ _ _ h h2 => le_trans h h2⟩

/-- Sorting of a player's rows by `ranking_date`, as done by
`rankings_df.sort(["atp_id", "ranking_date"])` restricted to one player. -/
def sortObs (l : List Obs) : List Obs := List.insertionSort obsLe l

/-- The midpoint dates produced by the gap loop of `insert_nan_for_gaps`
(src/preprocess_data.py lines 96-109): the loop runs over every consecutive
pair of dates of the sorted per-player frame and, when the delta strictly
exceeds `maxGap`, records one midpoint `prev + (curr - prev) / 2`. -/
def gapMids (dates : List ℚ) (maxGap : ℚ) : List ℚ :=
  (dates.zip dates.tail).filterMap
    (fun p => if p.2 - p.1 > maxGap then some (p.1 + (p.2 - p.1) / 2) else none)

/-- Shallow embedding of `insert_nan_for_gaps` (src/preprocess_data.py lines
63-144) restricted to a single player's rows: sort by date, collect one
null-rank row at the midpoint of every gap strictly larger than `maxGap`;
if any such row exists, append the new rows and re-sort, otherwise return the
sorted frame unchanged.  `preprocess_rankings_with_gaps`
(src/data_loader.py lines 390-467) implements the same per-player logic. -/
def insert_nan_for_gaps (obs : List Obs) (maxGap : ℚ) : List Obs :=
  match gapMids ((sortObs obs).map Obs.date) maxGap with
  | [] => sortObs obs
  | m :: ms => sortObs (sortObs obs ++ (m :: ms).map (fun d => Obs.mk d none))

/-- C1: for every chronologically sorted per-player observation list and every
threshold `maxGap`, the gap-marker builder returns a list that (i) consists of
the input rows together with exactly one synthetic null-rank row at the
arithmetic midpoint date of each consecutive pair of real observations whose
day-delta strictly exceeds `maxGap` (a permutation of the input plus exactly
those marker rows), and (ii) remains totally ordered by date.  Concretely,
observations on 2020-01-01 (epoch day 18262, rank 5) and 2021-06-01 (epoch day
18779, rank 80) with `max_gap_days = 180` yield exactly one inserted null-rank
row at the midpoint date 18520.5, and with `max_gap_days = 1000` yield zero
inserted rows. -/
theorem gap_insertion_correct (obs : List Obs) (maxGap : ℚ)
    (h : List.Sorted obsLe obs) :
    List.Perm (insert_nan_for_gaps obs maxGap)
      (obs ++ (gapMids (obs.map Obs.date) maxGap).map (fun d => Obs.mk d none))
    ∧ List.Sorted obsLe (insert_nan_for_gaps obs maxGap)
    ∧ insert_nan_for_gaps [Obs.mk 18262 (some 5), Obs.mk 18779 (some 80)] 180
        = [Obs.mk 18262 (some 5), Obs.mk (37041/2) none, Obs.mk 18779 (some 80)]
    ∧ insert_nan_for_gaps [Obs.mk 18262 (some 5), Obs.mk 18779 (some 80)] 1000
        = [Obs.mk 18262 (some 5), Obs.mk 18779 (some 80)] := by
  refine ⟨?_, ?_, ?_, ?_⟩
  · rw [insert_nan_for_gaps]
    have hs : sortObs obs = obs := h.insertionSort_eq
    rw [hs]
    cases hm : gapMids (obs.map Obs.date) maxGap with
    | nil => simp
    | cons m ms => exact List.perm_insertionSort _ _
  · rw [insert_nan_for_gaps]
    cases hm : gapMids ((sortObs obs).map Obs.date) maxGap with
    | nil => exact List.sorted_insertionSort obsLe obs
    | cons m ms => exact List.sorted_insertionSort obsLe _
  · norm_num [insert_nan_for_gaps, sortObs, gapMids, obsLe, List.insertionSort,
      List.orderedInsert, List.filterMap_cons, List.filterMap_nil]
  · norm_num [insert_nan_for_gaps, sortObs, gapMids, obsLe, List.insertionSort,
      List.orderedInsert, List.filterMap_cons, List.filterMap_nil]

/-- Witness for `gap_insertion_correct` at the concrete sorted two-row input of
the spec's own example. -/
theorem gap_insertion_correct_witness :
    List.Sorted obsLe [Obs.mk 18262 (some 5), Obs.mk 18779 (some 80)]
    ∧ (List.Perm (insert_nan_for_gaps [Obs.mk 18262 (some 5), Obs.mk 18779 (some 80)] 180)
        ([Obs.mk 18262 (some 5), Obs.mk 18779 (some 80)] ++
          (gapMids ([Obs.mk 18262 (some 5), Obs.mk 18779 (some 80)].map Obs.date) 180).map
            (fun d => Obs.mk d none))
      ∧ List.Sorted obsLe (insert_nan_for_gaps [Obs.mk 18262 (some 5), Obs.mk 18779 (some 80)] 180)
      ∧ insert_nan_for_gaps [Obs.mk 18262 (some 5), Obs.mk 18779 (some 80)] 180
          = [Obs.mk 18262 (some 5), Obs.mk (37041/2) none, Obs.mk 18779 (some 80)]
      ∧ insert_nan_for_gaps [Obs.mk 18262 (some 5), Obs.mk 18779 (some 80)] 1000
          = [Obs.mk 18262 (some 5), Obs.mk 18779 (some 80)]) :=
  ⟨by decide, gap_insertion_correct [Obs.mk 18262 (some 5), Obs.mk 18779 (some 80)] 180 (by decide)⟩

/-! ## Ingestion drivers and the raw cache skip logic
(src/atp_ranking_scraper.py update_rankings, src/atp_tournament_scraper.py
update_tournaments) -/

/-- One run of `update_rankings` (src/atp_ranking_scraper.py lines 113-142)
over the work-unit list `dates` (dates encoded as numbers, e.g. 20250602),
threaded through the raw-cache state `cache` (the list of unit keys whose raw
file exists).  A date is skipped iff its raw file already exists; otherwise it
is fetched, and its raw file is written only when the fetch returns a
non-empty frame (`hasData`).  Returns (list of dates fetched, final cache). -/
def update_rankings_run (hasData : Nat → Bool) : List Nat → List Nat → List Nat × List Nat
  | [], cache => ([], cache)
  | d :: ds, cache =>
      if d ∈ cache then update_rankings_run hasData ds cache
      else
        ((d :: (update_rankings_run hasData ds (if hasData d then cache ++ [d] else cache)).1),
         (update_rankings_run hasData ds (if hasData d then cache ++ [d] else cache)).2)

/-- A tournament work unit: one (year, tournament type) pair. -/
structure TUnit where
  year : Nat
  ttype : String
deriving DecidableEq, Repr

/-- `find_most_recent_year_with_files` (src/atp_tournament_scraper.py lines
215-246): the greatest year for which some tournament raw file exists
(the year directories are scanned in descending order and the first one
containing files is returned), or `none` when there are no files. -/
def find_most_recent_year_with_files (cache : List TUnit) : Option Nat :=
  (cache.map TUnit.year).foldl (fun acc y =>
    match acc with
    | none => some y
    | some m => some (max m y)) none

/-- The year × type loop of `update_tournaments` (src/atp_tournament_scraper.py
lines 186-212) with the most-recent-year value `mry` already computed: a unit
is skipped iff its raw file exists and its year differs from `mry`; otherwise
it is fetched and written when non-empty. -/
def update_tournaments_go (hasData : TUnit → Bool) (mry : Option Nat) :
    List TUnit → List TUnit → List TUnit × List TUnit
  | [], cache => ([], cache)
  | u :: us, cache =>
      if u ∈ cache ∧ some u.year ≠ mry then update_tournaments_go hasData mry us cache
      else
        ((u :: (update_tournaments_go hasData mry us
            (if hasData u then cache ++ [u] else cache)).1),
         (update_tournaments_go hasData mry us
            (if hasData u then cache ++ [u] else cache)).2)

/-- One run of `update_tournaments` (src/atp_tournament_scraper.py lines
176-212): the most recent year with files is computed once at entry, then the
driver loops over all (year, type) units. -/
def update_tournaments_run (hasData : TUnit → Bool) (years : List Nat) (ttypes : List String)
    (cache : List TUnit) : List TUnit × List TUnit :=
  update_tournaments_go hasData (find_most_recent_year_with_files cache)
    (years.flatMap (fun y => ttypes.map (fun t => TUnit.mk y t))) cache

theorem update_rankings_run_fst_mem (hasData : Nat → Bool) (dates : List Nat) :
    ∀ (cache : List Nat) (d : Nat),
      d ∈ (update_rankings_run hasData dates cache).1 ↔ d ∈ dates ∧ d ∉ cache := by
  induction dates with
  | nil =>
      intro cache d
      simp [update_rankings_run]
  | cons d' ds ih =>
      intro cache d
      rw [update_rankings_run]
      by_cases hc : d' ∈ cache
      · rw [if_pos hc, ih]
        constructor
        · rintro ⟨hd, hnc⟩
          exact ⟨List.mem_cons_of_mem _ hd, hnc⟩
        · rintro ⟨hd, hnc⟩
          rcases List.mem_cons.mp hd with rfl | h
          · exact absurd hc hnc
          · exact ⟨h, hnc⟩
      · rw [if_neg hc]
        by_cases hdd : d = d'
        · subst hdd
          simp [hc]
        · simp only [List.mem_cons, ih]
          have hmem : d ∈ (if hasData d' = true then cache ++ [d'] else cache) ↔ d ∈ cache := by
            cases hb : hasData d' <;> simp [hb, hdd]
          rw [hmem]
          simp [hdd]

theorem update_rankings_run_snd_mem (hasData : Nat → Bool)
    (hall : ∀ x, hasData x = true) (dates : List Nat) :
    ∀ (cache : List Nat) (d : Nat),
      d ∈ (update_rankings_run hasData dates cache).2 ↔ d ∈ dates ∨ d ∈ cache := by
  induction dates with
  | nil =>
      intro cache d
      simp [update_rankings_run]
  | cons d' ds ih =>
      intro cache d
      rw [update_rankings_run]
      by_cases hc : d' ∈ cache
      · rw [if_pos hc, ih]
        constructor
        · rintro (hd | hd)
          · exact Or.inl (List.mem_cons_of_mem _ hd)
          · exact Or.inr hd
        · rintro (hd | hd)
          · rcases List.mem_cons.mp hd with rfl | h
            · exact Or.inr hc
            · exact Or.inl h
          · exact Or.inr hd
      · rw [if_neg hc, hall d', if_pos rfl]
        rw [ih]
        simp [List.mem_append, List.mem_cons]
        tauto

theorem update_tournaments_go_fst_mem (hasData : TUnit → Bool) (mry : Option Nat)
    (units : List TUnit) :
    ∀ (cache : List TUnit) (u : TUnit),
      u ∈ (update_tournaments_go hasData mry units cache).1 ↔
        u ∈ units ∧ (u ∉ cache ∨ some u.year = mry) := by
  induction units with
  | nil =>
      intro cache u
      simp [update_tournaments_go]
  | cons v vs ih =>
      intro cache u
      rw [update_tournaments_go]
      by_cases hc : v ∈ cache ∧ some v.year ≠ mry
      · rw [if_pos hc, ih]
        constructor
        · rintro ⟨hu, hor⟩
          exact ⟨List.mem_cons_of_mem _ hu, hor⟩
        · rintro ⟨hu, hor⟩
          rcases List.mem_cons.mp hu with rfl | h
          · rcases hor with h1 | h1
            · exact absurd hc.1 h1
            · exact absurd h1 hc.2
          · exact ⟨h, hor⟩
      · rw [if_neg hc]
        push_neg at hc
        by_cases huv : u = v
        · subst huv
          constructor
          · intro _
            refine ⟨List.mem_cons_self u _, ?_⟩
            by_cases hm : u ∈ cache
            · exact Or.inr (hc hm)
            · exact Or.inl hm
          · intro _
            exact List.mem_cons_self u _
        · simp only [List.mem_cons, ih]
          have hmem : u ∈ (if hasData v = true then cache ++ [v] else cache) ↔ u ∈ cache := by
            cases hb : hasData v <;> simp [hb, huv]
          rw [hmem]
          simp [huv]

theorem update_tournaments_go_snd_mem (hasData : TUnit → Bool) (mry : Option Nat)
    (hall : ∀ x, hasData x = true) (units : List TUnit) :
    ∀ (cache : List TUnit) (u : TUnit),
      u ∈ (update_tournaments_go hasData mry units cache).2 ↔ u ∈ units ∨ u ∈ cache := by
  induction units with
  | nil =>
      intro cache u
      simp [update_tournaments_go]
  | cons v vs ih =>
      intro cache u
      rw [update_tournaments_go]
      by_cases hc : v ∈ cache ∧ some v.year ≠ mry
      · rw [if_pos hc, ih]
        constructor
        · rintro (hd | hd)
          · exact Or.inl (List.mem_cons_of_mem _ hd)
          · exact Or.inr hd
        · rintro (hd | hd)
          · rcases List.mem_cons.mp hd with rfl | h
            · exact Or.inr hc.1
            · exact Or.inl h
          · exact Or.inr hd
      · rw [if_neg hc, hall v, if_pos rfl, ih]
        simp [List.mem_append, List.mem_cons]
        tauto

/-- C2 counterexample: the rankings ingestion driver does NOT re-fetch the
designated current-period unit.  Concretely, with the single work unit
20250602 (the most recent — indeed only — week of the batch) already present
in the raw cache, a run of `update_rankings` performs zero fetches, although
the claim says this unit "is always re-fetched even if cached". -/
theorem rankings_current_week_not_refetched :
    (update_rankings_run (fun _ => true) [20250602] [20250602]).1 = []
    ∧ 20250602 ∉ (update_rankings_run (fun _ => true) [20250602] [20250602]).1 := by
  decide

/-- C2 (amended): the rankings driver checks the raw cache before every fetch
and skips every unit whose raw file exists, unconditionally — there is no
force-refresh flag and no current-period exception — so a unit is fetched iff
it is in the batch and not cached, and a second identical run (when every
fetch of the first run returned data) performs zero fetches.  The tournaments
driver skips a cached (year, type) unit unless its year is the most recent
year that already has tournament files; every type of that one year is always
re-fetched, so a unit is fetched iff it is in the batch and either not cached
or of the most recent year, and a second identical run re-fetches only units
of the most recent year. -/
theorem raw_cache_skip_amended (hasData : Nat → Bool) (thasData : TUnit → Bool)
    (dates cache : List Nat) (d : Nat)
    (years : List Nat) (ttypes : List String) (tcache : List TUnit) (u : TUnit)
    (hall : ∀ x, hasData x = true) (thall : ∀ x, thasData x = true) :
    (d ∈ (update_rankings_run hasData dates cache).1 ↔ d ∈ dates ∧ d ∉ cache)
    ∧ (update_rankings_run hasData dates (update_rankings_run hasData dates cache).2).1 = []
    ∧ (u ∈ (update_tournaments_run thasData years ttypes tcache).1 ↔
        u ∈ years.flatMap (fun y => ttypes.map (fun t => TUnit.mk y t)) ∧
          (u ∉ tcache ∨ some u.year = find_most_recent_year_with_files tcache))
    ∧ (u ∈ (update_tournaments_run thasData years ttypes
          (update_tournaments_run thasData years ttypes tcache).2).1 →
        some u.year = find_most_recent_year_with_files
          (update_tournaments_run thasData years ttypes tcache).2) := by
  refine ⟨update_rankings_run_fst_mem hasData dates cache d, ?_, ?_, ?_⟩
  · rw [List.eq_nil_iff_forall_not_mem]
    intro x hx
    rw [update_rankings_run_fst_mem] at hx
    exact hx.2 ((update_rankings_run_snd_mem hasData hall dates cache x).mpr (Or.inl hx.1))
  · rw [update_tournaments_run]
    exact update_tournaments_go_fst_mem thasData _ _ tcache u
  · intro hu
    rw [update_tournaments_run, update_tournaments_go_fst_mem] at hu
    rcases hu.2 with h1 | h1
    · exfalso
      apply h1
      rw [update_tournaments_run, update_tournaments_go_snd_mem thasData _ thall]
      exact Or.inl hu.1
    · exact h1

/-- Witness for `raw_cache_skip_amended` at a concrete one-unit batch. -/
theorem raw_cache_skip_amended_witness :
    (∀ x : Nat, (fun _ : Nat => true) x = true)
    ∧ (∀ x : TUnit, (fun _ : TUnit => true) x = true)
    ∧ ((1 ∈ (update_rankings_run (fun _ => true) [1] []).1 ↔ 1 ∈ [1] ∧ 1 ∉ ([] : List Nat))
      ∧ (update_rankings_run (fun _ => true) [1]
          (update_rankings_run (fun _ => true) [1] []).2).1 = []
      ∧ (TUnit.mk 2024 "gs" ∈ (update_tournaments_run (fun _ => true) [2024] ["gs"] []).1 ↔
          TUnit.mk 2024 "gs" ∈ [2024].flatMap (fun y => (["gs"] : List String).map
            (fun t => TUnit.mk y t)) ∧
            (TUnit.mk 2024 "gs" ∉ ([] : List TUnit) ∨
              some (TUnit.mk 2024 "gs").year = find_most_recent_year_with_files []))
      ∧ (TUnit.mk 2024 "gs" ∈ (update_tournaments_run (fun _ => true) [2024] ["gs"]
            (update_tournaments_run (fun _ => true) [2024] ["gs"] []).2).1 →
          some (TUnit.mk 2024 "gs").year = find_most_recent_year_with_files
            (update_tournaments_run (fun _ => true) [2024] ["gs"] []).2)) :=
  ⟨fun _ => rfl, fun _ => rfl,
    raw_cache_skip_amended (fun _ => true) (fun _ => true) [1] [] 1 [2024] ["gs"] []
      (TUnit.mk 2024 "gs") (fun _ => rfl) (fun _ => rfl)⟩

/-! ## Rank string cleaning and tie markers
(src/preprocess_data.py preprocess_all, src/atp_player_scraper.py
prioritize_players) -/

/-- Polars `str.replace("T", "")` as used on the rank column of
`preprocess_all` (src/preprocess_data.py line 195): polars replaces the first
occurrence of the pattern. -/
def removeFirstT : List Char → List Char
  | [] => []
  | c :: cs => if c = 'T' then cs else c :: removeFirstT cs

/-- Pandas `str.replace('T', '')` as used on the Rank column of
`prioritize_players` (src/atp_player_scraper.py line 104): pandas replaces
every occurrence of the pattern. -/
def removeAllT (cs : List Char) : List Char := cs.filter (fun c => c ≠ 'T')

/-- Decimal parsing of the cleaned rank string, as performed by the
`cast(pl.Int16)` / `astype(int)` conversions; `none` models the conversion
failing on an empty or non-numeric string. -/
def parseDigits (cs : List Char) : Option Nat :=
  if cs.isEmpty then none
  else cs.foldl (fun acc c =>
    match acc with
    | none => none
    | some n => if c.isDigit then some (n * 10 + (c.toNat - 48)) else none) (some 0)

/-- One row of the raw rankings frame as read by `preprocess_all`
(src/preprocess_data.py lines 167-196): the kept columns ranking_date, rank
(still a string), atp_id (URL-derived) and atp_name. -/
structure PreRow where
  ranking_date : Int
  rankStr : String
  atp_id : String
  atp_name : String
deriving DecidableEq, Repr

/-- One row of the preprocessed rankings frame: the rank is now an integer. -/
structure PreOut where
  ranking_date : Int
  rank : Option Nat
  atp_id : String
  atp_name : String
deriving DecidableEq, Repr

/-- The per-row rankings transformation of `preprocess_all`
(src/preprocess_data.py lines 184-196): the URL-derived `atp_id` (the row's
player identity) is carried through untouched — no name matching happens in
this pipeline — and the rank string has the tie marker stripped before
integer conversion. -/
def preprocessRankRow (r : PreRow) : PreOut :=
  { ranking_date := r.ranking_date
    rank := parseDigits (removeFirstT r.rankStr.data)
    atp_id := r.atp_id
    atp_name := r.atp_name }

theorem removeFirstT_append_T (ds : List Char) (hds : ∀ c ∈ ds, c.isDigit = true) :
    removeFirstT (ds ++ ['T']) = ds := by
  induction ds with
  | nil => simp [removeFirstT]
  | cons c cs ih =>
      have hc : c ≠ 'T' := by
        intro h
        have := hds c (List.mem_cons_self _ _)
        rw [h] at this
        exact absurd this (by decide)
      simp only [List.cons_append, removeFirstT, if_neg hc]
      exact congrArg (List.cons c) (ih (fun x hx => hds x (List.mem_cons_of_mem _ hx)))

theorem removeAllT_append_T (ds : List Char) (hds : ∀ c ∈ ds, c.isDigit = true) :
    removeAllT (ds ++ ['T']) = ds := by
  unfold removeAllT
  rw [List.filter_append]
  have h1 : List.filter (fun c => decide (c ≠ 'T')) ds = ds := by
    rw [List.filter_eq_self]
    intro c hc
    have := hds c hc
    simp only [decide_eq_true_eq]
    intro h
    rw [h] at this
    exact absurd this (by decide)
  have h2 : List.filter (fun c => decide (c ≠ 'T')) ['T'] = [] := by decide
  rw [h1, h2, List.append_nil]

/-- C8: for every rank string made of digits followed by the trailing tie
marker "T", both rank-conversion paths — the polars `str.replace` of
`preprocess_all` and the pandas `str.replace` of `prioritize_players` —
strip the marker and parse the remaining digits to the same integer; in
particular the rank string "12T" yields the integer 12 (for every row
carrying that string, since the conversion is per-row deterministic). -/
theorem tie_marker_stripped (ds : List Char) (n : Nat)
    (hds : ∀ c ∈ ds, c.isDigit = true) (hval : parseDigits ds = some n) :
    parseDigits (removeFirstT (ds ++ ['T'])) = some n
    ∧ parseDigits (removeAllT (ds ++ ['T'])) = some n
    ∧ (preprocessRankRow (PreRow.mk 0 "12T" "x1" "nm")).rank = some 12
    ∧ parseDigits (removeAllT ("12T".data)) = some 12 := by
  refine ⟨?_, ?_, by decide, by decide⟩
  · rw [removeFirstT_append_T ds hds]
    exact hval
  · rw [removeAllT_append_T ds hds]
    exact hval

/-- Witness for `tie_marker_stripped` at the digit string "12". -/
theorem tie_marker_stripped_witness :
    (∀ c ∈ ['1', '2'], c.isDigit = true)
    ∧ parseDigits ['1', '2'] = some 12
    ∧ (parseDigits (removeFirstT (['1', '2'] ++ ['T'])) = some 12
      ∧ parseDigits (removeAllT (['1', '2'] ++ ['T'])) = some 12
      ∧ (preprocessRankRow (PreRow.mk 0 "12T" "x1" "nm")).rank = some 12
      ∧ parseDigits (removeAllT ("12T".data)) = some 12) :=
  ⟨by decide, by decide, tie_marker_stripped ['1', '2'] 12 (by decide) (by decide)⟩

/-! ## Player prioritization (src/atp_player_scraper.py prioritize_players) -/

/-- One row of the concatenated raw rankings frame as consumed by
`prioritize_players` (src/atp_player_scraper.py lines 87-114): the
URL-derived player id, the ranking date and the raw Rank string. -/
structure RankEntry where
  atp_id : String
  ranking_date : Int
  rankStr : String
deriving DecidableEq, Repr

/-- The integer rank of a row after tie-marker stripping
(`rankings_df['Rank'].astype(str).str.replace('T', '').astype(int)`). -/
def entryRank (e : RankEntry) : Nat := (parseDigits (removeAllT e.rankStr.data)).getD 0

/-- The sort key of `prioritize_players`: ascending by rank, then ascending by
ranking date (`sort_values(['rank', 'ranking_date'], ascending=[True, True])`). -/
def keyLe (a b : RankEntry) : Prop :=
  entryRank a < entryRank b ∨ (entryRank a = entryRank b ∧ a.ranking_date ≤ b.ranking_date)

instance : DecidableRel keyLe := fun a b => by
  unfold keyLe
  infer_instance

instance : IsTotal RankEntry keyLe := by
  constructor
  intro a b
  rcases lt_trichotomy (entryRank a) (entryRank b) with h | h | h
  · exact Or.inl (Or.inl h)
  · rcases le_total a.ranking_date b.ranking_date with hd | hd
    · exact Or.inl (Or.inr ⟨h, hd⟩)
    · exact Or.inr (Or.inr ⟨h.symm, hd⟩)
  · exact Or.inr (Or.inl h)

instance : IsTrans RankEntry keyLe := by
  constructor
  intro a b c hab hbc
  rcases hab with h1 | ⟨h1, h1d⟩
  · rcases hbc with h2 | ⟨h2, h2d⟩
    · exact Or.inl (h1.trans h2)
    · exact Or.inl (h2 ▸ h1)
  · rcases hbc with h2 | ⟨h2, h2d⟩
    · exact Or.inl (h1 ▸ h2)
    · exact Or.inr ⟨h1.trans h2, h1d.trans h2d⟩

/-- `drop_duplicates('atp_id', keep='first')`: keep only the first row of each
player id, scanning left to right with the set of already seen ids. -/
def dedupById : List String → List RankEntry → List RankEntry
  | _, [] => []
  | seen, e :: es =>
      if e.atp_id ∈ seen then dedupById seen es
      else e :: dedupById (e.atp_id :: seen) es

/-- The deduplicated, sorted row list `unique_players` of `prioritize_players`
(src/atp_player_scraper.py lines 99-111): optionally filter out excluded ids
(the filter is applied only when `exclude_ids` is non-empty, mirroring the
truthiness check `if exclude_ids:`), sort by (rank, date), drop duplicate ids
keeping the first. -/
def prioritizedRows (rows : List RankEntry) (exclude : List String) : List RankEntry :=
  dedupById []
    (List.insertionSort keyLe
      (if exclude.isEmpty then rows else rows.filter (fun e => decide (e.atp_id ∉ exclude))))

/-- `prioritize_players` (src/atp_player_scraper.py lines 87-114): the first
`n` player ids of the prioritized row list. -/
def prioritize_players (rows : List RankEntry) (n : Nat) (exclude : List String) : List String :=
  ((prioritizedRows rows exclude).map RankEntry.atp_id).take n

theorem dedupById_sublist (seen : List String) (l : List RankEntry) :
    (dedupById seen l).Sublist l := by
  induction l generalizing seen with
  | nil => simp [dedupById]
  | cons e es ih =>
      rw [dedupById]
      by_cases h : e.atp_id ∈ seen
      · rw [if_pos h]
        exact (ih seen).trans (List.sublist_cons_self e es)
      · rw [if_neg h]
        exact (ih (e.atp_id :: seen)).cons₂ e

theorem dedupById_mem_not_seen (seen : List String) (l : List RankEntry) (r : RankEntry)
    (hr : r ∈ dedupById seen l) : r.atp_id ∉ seen := by
  induction l generalizing seen with
  | nil => simp [dedupById] at hr
  | cons e es ih =>
      rw [dedupById] at hr
      by_cases h : e.atp_id ∈ seen
      · rw [if_pos h] at hr
        exact ih seen hr
      · rw [if_neg h] at hr
        rcases List.mem_cons.mp hr with rfl | hr2
        · exact h
        · intro hmem
          exact ih (e.atp_id :: seen) hr2 (List.mem_cons_of_mem _ hmem)

theorem dedupById_nodup (seen : List String) (l : List RankEntry) :
    ((dedupById seen l).map RankEntry.atp_id).Nodup := by
  induction l generalizing seen with
  | nil => simp [dedupById]
  | cons e es ih =>
      rw [dedupById]
      by_cases h : e.atp_id ∈ seen
      · rw [if_pos h]
        exact ih seen
      · rw [if_neg h]
        rw [List.map_cons, List.nodup_cons]
        refine ⟨?_, ih (e.atp_id :: seen)⟩
        intro hmem
        rcases List.mem_map.mp hmem with ⟨r, hr, hid⟩
        exact dedupById_mem_not_seen _ _ r hr (hid ▸ List.mem_cons_self _ _)

theorem keyLe_refl (a : RankEntry) : keyLe a a := Or.inr ⟨rfl, le_rfl⟩

theorem dedupById_min (l : List RankEntry) (hsort : List.Pairwise keyLe l) :
    ∀ (seen : List String) (r : RankEntry), r ∈ dedupById seen l →
      ∀ r' ∈ l, r'.atp_id = r.atp_id → keyLe r r' := by
  induction l with
  | nil =>
      intro seen r hr
      simp [dedupById] at hr
  | cons e es ih =>
      rw [List.pairwise_cons] at hsort
      intro seen r hr r' hr' hid
      rw [dedupById] at hr
      by_cases h : e.atp_id ∈ seen
      · rw [if_pos h] at hr
        rcases List.mem_cons.mp hr' with heq | hr2
        · exact absurd ((heq ▸ hid : e.atp_id = r.atp_id) ▸ h)
            (dedupById_mem_not_seen _ _ r hr)
        · exact ih hsort.2 seen r hr r' hr2 hid
      · rw [if_neg h] at hr
        rcases List.mem_cons.mp hr with heq | hrd
        · subst heq
          rcases List.mem_cons.mp hr' with heq2 | hr2
          · subst heq2
            exact keyLe_refl r'
          · exact hsort.1 r' hr2
        · rcases List.mem_cons.mp hr' with heq2 | hr2
          · have hns := dedupById_mem_not_seen _ _ r hrd
            exact absurd ((heq2 ▸ hid : e.atp_id = r.atp_id) ▸ List.mem_cons_self _ _) hns
          · exact ih hsort.2 (e.atp_id :: seen) r hrd r' hr2 hid

theorem prioritizedRows_mem (rows : List RankEntry) (exclude : List String)
    (r : RankEntry) (hr : r ∈ prioritizedRows rows exclude) :
    r ∈ rows ∧ r.atp_id ∉ exclude := by
  have hsorted : r ∈ List.insertionSort keyLe
      (if exclude.isEmpty then rows
       else rows.filter (fun e => decide (e.atp_id ∉ exclude))) :=
    (dedupById_sublist _ _).mem hr
  have hbase := (List.perm_insertionSort keyLe _).mem_iff.mp hsorted
  by_cases hex : exclude.isEmpty
  · rw [if_pos hex] at hbase
    refine ⟨hbase, ?_⟩
    rw [List.isEmpty_iff.mp hex]
    simp
  · rw [if_neg hex] at hbase
    rw [List.mem_filter] at hbase
    exact ⟨hbase.1, of_decide_eq_true hbase.2⟩

theorem prioritizedRows_min (rows : List RankEntry) (exclude : List String)
    (r : RankEntry) (hr : r ∈ prioritizedRows rows exclude)
    (r' : RankEntry) (hr' : r' ∈ rows) (hid : r'.atp_id = r.atp_id) : keyLe r r' := by
  have hnotex : r.atp_id ∉ exclude := (prioritizedRows_mem rows exclude r hr).2
  have hr'base : r' ∈ (if exclude.isEmpty then rows
      else rows.filter (fun e => decide (e.atp_id ∉ exclude))) := by
    by_cases hex : exclude.isEmpty
    · rw [if_pos hex]
      exact hr'
    · rw [if_neg hex, List.mem_filter]
      refine ⟨hr', decide_eq_true ?_⟩
      rw [hid]
      exact hnotex
  have hr'sorted : r' ∈ List.insertionSort keyLe _ :=
    (List.perm_insertionSort keyLe _).symm.mem_iff.mp hr'base
  exact dedupById_min _ (List.sorted_insertionSort keyLe _) [] r hr r' hr'sorted hid

/-- C10: for every rankings frame, limit `n` and exclusion set (under the
well-formedness condition that every row's rank string parses after
tie-marker stripping, which is required for `astype(int)` not to fail),
`prioritize_players` returns at most `n` player ids, without duplicates, none
of them excluded; every retained row is a row of the input whose (rank, date)
key is minimal among all rows of that player (numerically smallest rank,
earliest date as tiebreak); and the retained rows are ordered by best rank
ascending, the returned ids being the first `n` of them in that order. -/
theorem prioritize_players_spec (rows : List RankEntry) (n : Nat) (exclude : List String)
    (hranks : ∀ e ∈ rows, (parseDigits (removeAllT e.rankStr.data)).isSome = true) :
    (prioritize_players rows n exclude).length ≤ n
    ∧ (prioritize_players rows n exclude).Nodup
    ∧ (∀ pid ∈ prioritize_players rows n exclude, pid ∉ exclude)
    ∧ (∀ r ∈ prioritizedRows rows exclude,
        r ∈ rows ∧ r.atp_id ∉ exclude ∧ ∀ r' ∈ rows, r'.atp_id = r.atp_id → keyLe r r')
    ∧ List.Pairwise (fun a b => entryRank a ≤ entryRank b) (prioritizedRows rows exclude)
    ∧ prioritize_players rows n exclude
        = ((prioritizedRows rows exclude).map RankEntry.atp_id).take n := by
  refine ⟨?_, ?_, ?_, ?_, ?_, rfl⟩
  · rw [prioritize_players, List.length_take]
    exact min_le_left _ _
  · exact (dedupById_nodup [] _).sublist (List.take_sublist _ _)
  · intro pid hpid
    have hmap : pid ∈ (prioritizedRows rows exclude).map RankEntry.atp_id :=
      (List.take_sublist _ _).mem hpid
    rcases List.mem_map.mp hmap with ⟨r, hr, hid⟩
    exact hid ▸ (prioritizedRows_mem rows exclude r hr).2
  · intro r hr
    exact ⟨(prioritizedRows_mem rows exclude r hr).1, (prioritizedRows_mem rows exclude r hr).2,
      fun r' hr' hid => prioritizedRows_min rows exclude r hr r' hr' hid⟩
  · have hpair : List.Pairwise keyLe (prioritizedRows rows exclude) :=
      (List.sorted_insertionSort keyLe _).sublist (dedupById_sublist _ _)
    refine hpair.imp ?_
    intro a b hab
    rcases hab with h | ⟨h, _⟩
    · exact h.le
    · exact h.le

/-- Witness for `prioritize_players_spec` at a concrete two-row frame for one
player, with a tied rank string and an exclusion set. -/
theorem prioritize_players_spec_witness :
    (∀ e ∈ [RankEntry.mk "p1" 10 "3T", RankEntry.mk "p1" 5 "7"],
      (parseDigits (removeAllT e.rankStr.data)).isSome = true)
    ∧ ((prioritize_players [RankEntry.mk "p1" 10 "3T", RankEntry.mk "p1" 5 "7"] 1 ["p9"]).length ≤ 1
      ∧ (prioritize_players [RankEntry.mk "p1" 10 "3T", RankEntry.mk "p1" 5 "7"] 1 ["p9"]).Nodup
      ∧ (∀ pid ∈ prioritize_players [RankEntry.mk "p1" 10 "3T", RankEntry.mk "p1" 5 "7"] 1 ["p9"],
          pid ∉ ["p9"])
      ∧ (∀ r ∈ prioritizedRows [RankEntry.mk "p1" 10 "3T", RankEntry.mk "p1" 5 "7"] ["p9"],
          r ∈ [RankEntry.mk "p1" 10 "3T", RankEntry.mk "p1" 5 "7"] ∧ r.atp_id ∉ ["p9"]
            ∧ ∀ r' ∈ [RankEntry.mk "p1" 10 "3T", RankEntry.mk "p1" 5 "7"],
                r'.atp_id = r.atp_id → keyLe r r')
      ∧ List.Pairwise (fun a b => entryRank a ≤ entryRank b)
          (prioritizedRows [RankEntry.mk "p1" 10 "3T", RankEntry.mk "p1" 5 "7"] ["p9"])
      ∧ prioritize_players [RankEntry.mk "p1" 10 "3T", RankEntry.mk "p1" 5 "7"] 1 ["p9"]
          = ((prioritizedRows [RankEntry.mk "p1" 10 "3T", RankEntry.mk "p1" 5 "7"] ["p9"]).map
              RankEntry.atp_id).take 1) :=
  ⟨by decide,
    prioritize_players_spec [RankEntry.mk "p1" 10 "3T", RankEntry.mk "p1" 5 "7"] 1 ["p9"]
      (by decide)⟩

/-! ## Tournament event filtering (src/atp_tournament_scraper.py scrape_atp_events) -/

/-- One winner block of an event (a dl.winner element with a dt label and dd
entries): the winner type label, already normalized as in the source
(lowercased, spaces replaced by underscores, e.g. "singles_winner"), and the
anchor entries found in the dd tags — each the anchor text (a winner display
name) and the optional href (the winner profile URL; `none` models an anchor
without href, for which the source records the empty string via
`a_tag.get('href', '')`).  Blocks without a dt or without dd tags are not
represented: the source ignores them entirely. -/
structure WinnerGroup where
  wtype : String
  entries : List (String × Option String)
deriving DecidableEq, Repr

/-- One parsed li tournament block of the results-archive page; only the
winner blocks matter for the retention decision, the remaining extracted
attributes (name, venue, dates, ...) are bundled opaquely as `info`. -/
structure EventLi where
  info : String
  groups : List WinnerGroup
deriving DecidableEq, Repr

/-- The output record for one retained tournament.  Each
`event[winner_type + '_names'] = winner_names` assignment overwrites the
previous one, so the last singles_winner block wins; the fields are `none`
when no singles_winner block was present (absent dict key). -/
structure Event where
  info : String
  singles_winner_names : Option (List String)
  singles_winner_urls : Option (List String)
deriving DecidableEq, Repr

def mkEvent (li : EventLi) : Event :=
  { info := li.info
    singles_winner_names :=
      ((li.groups.filter (fun g => g.wtype == "singles_winner")).getLast?).map
        (fun g => g.entries.map Prod.fst)
    singles_winner_urls :=
      ((li.groups.filter (fun g => g.wtype == "singles_winner")).getLast?).map
        (fun g => g.entries.map (fun e => e.2.getD "")) }

/-- The retention flag `singles_winner_found` of `scrape_atp_events`
(src/atp_tournament_scraper.py lines 134-157): true when some winner block
carries the singles_winner label and a non-empty winner-name list. -/
def singlesWinnerFound (li : EventLi) : Bool :=
  li.groups.any (fun g => g.wtype == "singles_winner" && !g.entries.isEmpty)

/-- `scrape_atp_events` (src/atp_tournament_scraper.py lines 57-173) after
HTML parsing: every li block without the singles-winner flag is skipped
(`if not singles_winner_found: continue`), the rest become event records. -/
def scrape_atp_events (lis : List EventLi) : List Event :=
  (lis.filter singlesWinnerFound).map mkEvent

/-- C5: the tournament fetcher excludes every event lacking at least one
singles-winner name and keeps every event having one; a winner anchor with a
name but no href is kept, its URL recorded as the empty string.  Conjuncts:
the retention flag holds iff some singles_winner block has a non-empty name
list; every flagged block of the page yields an output record; every output
record comes from a flagged block; an event whose only singles winner has a
name but no URL is included (URL ""); events with an empty winner-name list
or no winner block at all are excluded. -/
theorem tournament_winner_filter (lis : List EventLi) (li : EventLi) (hli : li ∈ lis) :
    (singlesWinnerFound li = true ↔
      ∃ g ∈ li.groups, g.wtype = "singles_winner" ∧ g.entries ≠ [])
    ∧ (singlesWinnerFound li = true → mkEvent li ∈ scrape_atp_events lis)
    ∧ (∀ e ∈ scrape_atp_events lis, ∃ li2 ∈ lis, singlesWinnerFound li2 = true ∧ e = mkEvent li2)
    ∧ scrape_atp_events [EventLi.mk "ev" [WinnerGroup.mk "singles_winner" [("Jane Roe", none)]]]
        = [Event.mk "ev" (some ["Jane Roe"]) (some [""])]
    ∧ scrape_atp_events [EventLi.mk "ev" [WinnerGroup.mk "singles_winner" []]] = []
    ∧ scrape_atp_events [EventLi.mk "ev" []] = [] := by
  refine ⟨?_, ?_, ?_, by decide, by decide, by decide⟩
  · simp [singlesWinnerFound, List.any_eq_true]
  · intro h
    exact List.mem_map.mpr ⟨li, List.mem_filter.mpr ⟨hli, h⟩, rfl⟩
  · intro e he
    rcases List.mem_map.mp he with ⟨li2, hli2, heq⟩
    rcases List.mem_filter.mp hli2 with ⟨hmem, hflag⟩
    exact ⟨li2, hmem, hflag, heq.symm⟩

/-- Witness for `tournament_winner_filter` at a one-event page whose singles
winner has a name but no URL. -/
theorem tournament_winner_filter_witness :
    EventLi.mk "ev" [WinnerGroup.mk "singles_winner" [("Jane Roe", none)]]
        ∈ [EventLi.mk "ev" [WinnerGroup.mk "singles_winner" [("Jane Roe", none)]]]
    ∧ ((singlesWinnerFound (EventLi.mk "ev" [WinnerGroup.mk "singles_winner" [("Jane Roe", none)]])
          = true ↔
        ∃ g ∈ (EventLi.mk "ev" [WinnerGroup.mk "singles_winner" [("Jane Roe", none)]]).groups,
          g.wtype = "singles_winner" ∧ g.entries ≠ [])
      ∧ (singlesWinnerFound (EventLi.mk "ev" [WinnerGroup.mk "singles_winner" [("Jane Roe", none)]])
            = true →
          mkEvent (EventLi.mk "ev" [WinnerGroup.mk "singles_winner" [("Jane Roe", none)]])
            ∈ scrape_atp_events [EventLi.mk "ev" [WinnerGroup.mk "singles_winner"
                [("Jane Roe", none)]]])
      ∧ (∀ e ∈ scrape_atp_events [EventLi.mk "ev" [WinnerGroup.mk "singles_winner"
            [("Jane Roe", none)]]],
          ∃ li2 ∈ [EventLi.mk "ev" [WinnerGroup.mk "singles_winner" [("Jane Roe", none)]]],
            singlesWinnerFound li2 = true ∧ e = mkEvent li2)
      ∧ scrape_atp_events [EventLi.mk "ev" [WinnerGroup.mk "singles_winner" [("Jane Roe", none)]]]
          = [Event.mk "ev" (some ["Jane Roe"]) (some [""])]
      ∧ scrape_atp_events [EventLi.mk "ev" [WinnerGroup.mk "singles_winner" []]] = []
      ∧ scrape_atp_events [EventLi.mk "ev" []] = []) :=
  ⟨List.mem_cons_self _ _,
    tournament_winner_filter [EventLi.mk "ev" [WinnerGroup.mk "singles_winner" [("Jane Roe", none)]]]
      (EventLi.mk "ev" [WinnerGroup.mk "singles_winner" [("Jane Roe", none)]])
      (List.mem_cons_self _ _)⟩

/-! ## Fetchers returning None on missing page sections
(src/atp_ranking_scraper.py scrape_atp_rankings_by_date,
src/atp_player_scraper.py scrape_atp_player_details) -/

/-- One tr of the rankings table: the stripped texts of its td cells and the
optional player profile href of the player cell. -/
structure RankingsTr where
  tds : List String
  profileHref : Option String
deriving DecidableEq, Repr

/-- The parsed rankings page: `table` is `none` when the page has no ranking
table (the `soup.find('table', ...)` call returns None). -/
structure RankingsPage where
  table : Option (List RankingsTr)
deriving DecidableEq, Repr

/-- A parsed row of `scrape_atp_rankings_by_date`: the cell texts plus the
atp_id / atp_name extracted from the profile link and the requested date. -/
structure RankRowOut where
  cells : List String
  atp_id : String
  atp_name : String
  ranking_date : Int
deriving DecidableEq, Repr

/-- The href handling of `scrape_atp_rankings_by_date` (lines 90-100): when
the profile link exists, contains "/players/" and splits on "/" into at least
6 parts, parts 3 and 4 are the URL-friendly name and the player id; otherwise
both stay empty.  Returns (atp_id, atp_name). -/
def parseProfileHref (href : Option String) : String × String :=
  match href with
  | none => ("", "")
  | some h =>
      if (h.splitOn "/players/").length ≥ 2 then
        if (h.splitOn "/").length ≥ 6 then
          (((h.splitOn "/").getD 4 ""), ((h.splitOn "/").getD 3 ""))
        else ("", "")
      else ("", "")

/-- The row loop of `scrape_atp_rankings_by_date` (lines 61-101): rows with no
td cells or a single td cell are skipped, the rest yield one record each. -/
def parseRankingRows (trs : List RankingsTr) (date : Int) : List RankRowOut :=
  trs.filterMap (fun tr =>
    if tr.tds.isEmpty || tr.tds.length == 1 then none
    else
      some { cells := tr.tds
             atp_id := (parseProfileHref tr.profileHref).1
             atp_name := (parseProfileHref tr.profileHref).2
             ranking_date := date })

/-- `scrape_atp_rankings_by_date` (src/atp_ranking_scraper.py lines 13-110)
after a successful HTTP response: if the rankings table is absent the function
returns None (lines 50-54), otherwise the parsed rows. -/
def scrape_atp_rankings_by_date (date : Int) (page : RankingsPage) : Option (List RankRowOut) :=
  match page.table with
  | none => none
  | some trs => some (parseRankingRows trs date)

/-- One li of the personal-details panel: the stripped texts of its direct
span children. -/
structure PdLi where
  spans : List String
deriving DecidableEq, Repr

/-- The parsed player overview page: the optional title text and the
personal-details panel content, `none` when the .pd_content div is absent. -/
structure PlayerPage where
  title : Option String
  pd_content : Option (List PdLi)
deriving DecidableEq, Repr

/-- A scraped player-details record: the optional full name from the title and
the (label, value) pairs of the panel entries. -/
structure PlayerDetails where
  full_name : Option String
  fields : List (String × String)
deriving DecidableEq, Repr

/-- Label normalization of the details loop: spaces to underscores,
lowercased. -/
def detailLabel (s : String) : String := (s.replace " " "_").toLower

/-- `scrape_atp_player_details` (src/atp_player_scraper.py lines 13-84) after
page rendering: the full name is the title up to the first "|", and if the
.pd_content panel is absent the function returns None (lines 42-45);
otherwise each li with two direct spans yields (label, value), each li with
one span yields (label, ""), other li shapes contribute no field at this
granularity. -/
def scrape_atp_player_details (page : PlayerPage) : Option PlayerDetails :=
  match page.pd_content with
  | none => none
  | some lis =>
      some { full_name := page.title.map (fun t => ((t.splitOn "|").headD t).trim)
             fields := lis.filterMap (fun li =>
               match li.spans with
               | [l, v] => some (detailLabel l, v)
               | [l] => some (detailLabel l, "")
               | _ => none) }

/-- C6: for every received response, the rankings fetcher returns the None
result exactly when the expected rankings table is absent, and the player
fetcher returns None exactly when the personal-details panel is absent — in
both cases a result is returned rather than an exception raised (the
embedding is a total function into an Option result). -/
theorem fetcher_notfound_on_missing_section (date : Int) (page : RankingsPage)
    (ppage : PlayerPage) :
    ((scrape_atp_rankings_by_date date page).isNone ↔ page.table = none)
    ∧ ((scrape_atp_player_details ppage).isNone ↔ ppage.pd_content = none) := by
  constructor
  · cases h : page.table <;> simp [scrape_atp_rankings_by_date, h]
  · cases h : ppage.pd_content <;> simp [scrape_atp_player_details, h]

/-! ## Rank interpolation for the query facade (application.py update_graph) -/

/-- Modelled from the spec: the walk of `interpolate_rank_at_date` along the
sorted observation list with the current observation `p` in hand — past the
end return the last rank, at the first bracketing pair interpolate linearly by
elapsed days, with the same-date division guard returning the earlier rank.
The function `interpolate_rank_at_date` is imported from `src.data_loader` by
application.py (line 12) and invoked at application.py line 512, but its
definition is not among the provided sources, so it is modelled from spec
section 4.6. -/
def interpGo : Int × ℚ → List (Int × ℚ) → Int → ℚ
  | p, [], _ => p.2
  | p, q :: rest, t =>
      if t ≤ q.1 then
        (if p.1 = q.1 then p.2
         else p.2 + (q.2 - p.2) * (((t : ℚ) - (p.1 : ℚ)) / ((q.1 : ℚ) - (p.1 : ℚ))))
      else interpGo q rest t

/-- Modelled from the spec: `interpolated_rank(player_observations_sorted,
target_date)` — the first observation's rank if the target date precedes all
observations, otherwise the walk `interpGo`; `none` on an empty observation
list.  Observations are (day, rank) pairs sorted by day. -/
def interpolated_rank : List (Int × ℚ) → Int → Option ℚ
  | [], _ => none
  | p :: rest, t => if t < p.1 then some p.2 else some (interpGo p rest t)

theorem interpGo_after_all (t : Int) :
    ∀ (rest : List (Int × ℚ)) (p : Int × ℚ), (∀ q ∈ rest, q.1 < t) →
      interpGo p rest t = ((p :: rest).getLast (by simp)).2 := by
  intro rest
  induction rest with
  | nil =>
      intro p _
      simp [interpGo]
  | cons q rest' ih =>
      intro p hall
      rw [interpGo]
      rw [if_neg (not_le.mpr (hall q (List.mem_cons_self _ _)))]
      rw [ih q (fun x hx => hall x (List.mem_cons_of_mem _ hx))]
      simp [List.getLast_cons]

theorem interpGo_bracket (t : Int) (p q : Int × ℚ) (l2 : List (Int × ℚ))
    (hp : p.1 < t) (hq : t ≤ q.1) :
    interpGo p (q :: l2) t
      = p.2 + (q.2 - p.2) * (((t : ℚ) - (p.1 : ℚ)) / ((q.1 : ℚ) - (p.1 : ℚ))) := by
  rw [interpGo, if_pos hq, if_neg (by omega : ¬ p.1 = q.1)]

theorem interpGo_walk (t : Int) :
    ∀ (l1 : List (Int × ℚ)) (p0 p q : Int × ℚ) (l2 : List (Int × ℚ)),
      (∀ x ∈ l1, x.1 < t) → p.1 < t → t ≤ q.1 →
      interpGo p0 (l1 ++ p :: q :: l2) t
        = p.2 + (q.2 - p.2) * (((t : ℚ) - (p.1 : ℚ)) / ((q.1 : ℚ) - (p.1 : ℚ))) := by
  intro l1
  induction l1 with
  | nil =>
      intro p0 p q l2 _ hp hq
      rw [List.nil_append, interpGo, if_neg (not_le.mpr hp)]
      exact interpGo_bracket t p q l2 hp hq
  | cons x l1' ih =>
      intro p0 p q l2 hall hp hq
      rw [List.cons_append, interpGo,
        if_neg (not_le.mpr (hall x (List.mem_cons_self _ _)))]
      exact ih x p q l2 (fun y hy => hall y (List.mem_cons_of_mem _ hy)) hp hq

/-- C4 (spec-modelled): `interpolated_rank` returns the first observation's
rank when the target date precedes all observations, the last observation's
rank when it follows all observations, and otherwise the linear interpolation
between the two bracketing observations weighted by elapsed days, the earlier
bracketing rank when both bracketing observations share the same date; on the
concrete observations [(day 0, rank 10), (day 10, rank 20)] it returns 10 at
day -5, 20 at day 15 and 15 at day 5. -/
theorem interpolated_rank_spec :
    (∀ (p : Int × ℚ) (rest : List (Int × ℚ)) (t : Int), t < p.1 →
      interpolated_rank (p :: rest) t = some p.2)
    ∧ (∀ (obs : List (Int × ℚ)) (t : Int), (∀ q ∈ obs, q.1 < t) →
        interpolated_rank obs t = obs.getLast?.map Prod.snd)
    ∧ (∀ (l1 : List (Int × ℚ)) (p q : Int × ℚ) (l2 : List (Int × ℚ)) (t : Int),
        (∀ x ∈ l1, x.1 < t) → p.1 < t → t ≤ q.1 →
        interpolated_rank (l1 ++ p :: q :: l2) t
          = some (p.2 + (q.2 - p.2) * (((t : ℚ) - (p.1 : ℚ)) / ((q.1 : ℚ) - (p.1 : ℚ)))))
    ∧ (∀ (d : Int) (r1 r2 : ℚ) (l2 : List (Int × ℚ)),
        interpolated_rank ((d, r1) :: (d, r2) :: l2) d = some r1)
    ∧ interpolated_rank [((0 : Int), (10 : ℚ)), (10, 20)] (-5) = some 10
    ∧ interpolated_rank [((0 : Int), (10 : ℚ)), (10, 20)] 15 = some 20
    ∧ interpolated_rank [((0 : Int), (10 : ℚ)), (10, 20)] 5 = some 15 := by
  refine ⟨?_, ?_, ?_, ?_, ?_, ?_, ?_⟩
  · intro p rest t ht
    rw [interpolated_rank, if_pos ht]
  · intro obs t hall
    cases obs with
    | nil => simp [interpolated_rank]
    | cons p rest =>
        rw [interpolated_rank,
          if_neg (not_lt.mpr (hall p (List.mem_cons_self _ _)).le),
          interpGo_after_all t rest p (fun q hq => hall q (List.mem_cons_of_mem _ hq))]
        rw [List.getLast?_eq_getLast _ (by simp)]
        simp
  · intro l1 p q l2 t hall hp hq
    cases l1 with
    | nil =>
        rw [List.nil_append, interpolated_rank, if_neg (not_lt.mpr hp.le)]
        rw [interpGo_bracket t p q l2 hp hq]
    | cons x l1' =>
        rw [List.cons_append, interpolated_rank,
          if_neg (not_lt.mpr (hall x (List.mem_cons_self _ _)).le)]
        rw [interpGo_walk t l1' x p q l2 (fun y hy => hall y (List.mem_cons_of_mem _ hy)) hp hq]
  · intro d r1 r2 l2
    rw [interpolated_rank, if_neg (lt_irrefl d), interpGo, if_pos le_rfl, if_pos rfl]
  · rw [interpolated_rank, if_pos (by decide)]
  · rw [interpolated_rank, if_neg (by decide), interpGo, if_neg (by decide), interpGo]
  · rw [interpolated_rank, if_neg (by decide), interpGo, if_pos (by decide),
      if_neg (by decide)]
    norm_num

/-- Witness for `interpolated_rank_spec`: the precedes-all case at the spec's
concrete observations. -/
theorem interpolated_rank_spec_witness :
    ((-5 : Int) < (((0 : Int), (10 : ℚ))).1)
    ∧ interpolated_rank [((0 : Int), (10 : ℚ)), (10, 20)] (-5) = some 10 :=
  ⟨by decide, interpolated_rank_spec.1 ((0 : Int), (10 : ℚ)) [(10, 20)] (-5) (by decide)⟩

/-! ## Date-of-birth extraction (src/preprocess_data.py extract_dob)

The function scans its string input with three regular expressions, in order:
a parenthesized YYYY sep MM sep DD (sep one of / or -), a bare one, and a
dotted DD.MM.YYYY; the first (leftmost) match of a pattern is converted to
Y-M-D order and validated with pandas `to_datetime` (which raises on an
invalid calendar date and on dates outside the pandas Timestamp range,
1677-09-22 .. 2262-04-11 at midnight resolution; the bare `except` then moves
on to the NEXT pattern), and on success the date is reformatted zero-padded.
The scanners below reproduce the regex semantics — leftmost match, greedy
one-or-two-digit groups with backtracking against the following literal —
for ASCII digits. -/

/-- A scalar pandas cell value: None, NaN, a number, or a string.  The first
three return None from `extract_dob` (`value is None or pd.isna(value)`,
`not isinstance(value, str)`). -/
inductive PyVal where
  | pynone
  | pynan
  | pynum (q : ℚ)
  | pystr (s : String)

def digitVal (c : Char) : Nat := c.toNat - 48

def isSep (c : Char) : Bool := c == '/' || c == '-'

/-- Exactly four digits (the regex `\d` quantified {4}). -/
def d4 : List Char → Option (Nat × List Char)
  | a :: b :: c :: d :: rest =>
      if a.isDigit && b.isDigit && c.isDigit && d.isDigit then
        some (((digitVal a * 10 + digitVal b) * 10 + digitVal c) * 10 + digitVal d, rest)
      else none
  | _ => none

def d2 : List Char → Option (Nat × List Char)
  | a :: b :: rest =>
      if a.isDigit && b.isDigit then some (digitVal a * 10 + digitVal b, rest) else none
  | _ => none

def d1 : List Char → Option (Nat × List Char)
  | a :: rest => if a.isDigit then some (digitVal a, rest) else none
  | _ => none

def sepAfter (p : Char → Bool) : List Char → Option (List Char)
  | c :: rest => if p c then some rest else none
  | _ => none

/-- One or two digits followed by a separator satisfying `p`: greedy, trying
two digits first and backtracking to one, as the regex engine does. -/
def d12then (p : Char → Bool) (cs : List Char) : Option (Nat × List Char) :=
  match d2 cs with
  | some (v, rest) =>
      match sepAfter p rest with
      | some rest2 => some (v, rest2)
      | none =>
          match d1 cs with
          | some (v1, rest1) =>
              match sepAfter p rest1 with
              | some rest2 => some (v1, rest2)
              | none => none
          | none => none
  | none =>
      match d1 cs with
      | some (v1, rest1) =>
          match sepAfter p rest1 with
          | some rest2 => some (v1, rest2)
          | none => none
      | none => none

/-- One or two digits at the end of a pattern (nothing follows): greedy. -/
def d12end (cs : List Char) : Option Nat :=
  match d2 cs with
  | some (v, _) => some v
  | none =>
      match d1 cs with
      | some (v, _) => some v
      | none => none

/-- Match of the bare pattern YYYY sep M(M) sep D(D) at this position. -/
def matchP2At (cs : List Char) : Option (Nat × Nat × Nat) :=
  match d4 cs with
  | none => none
  | some (y, r1) =>
      match sepAfter isSep r1 with
      | none => none
      | some r2 =>
          match d12then isSep r2 with
          | none => none
          | some (m, r3) =>
              match d12end r3 with
              | none => none
              | some d => some (y, m, d)

/-- Match of the parenthesized pattern at this position. -/
def matchP1At (cs : List Char) : Option (Nat × Nat × Nat) :=
  match cs with
  | '(' :: r0 =>
      match d4 r0 with
      | none => none
      | some (y, r1) =>
          match sepAfter isSep r1 with
          | none => none
          | some r2 =>
              match d12then isSep r2 with
              | none => none
              | some (m, r3) =>
                  match d12then (fun c => c == ')') r3 with
                  | none => none
                  | some (d, _) => some (y, m, d)
  | _ => none

/-- Match of the dotted pattern D(D).M(M).YYYY at this position; the source
reorders the parts to Y-M-D before validation. -/
def matchP3At (cs : List Char) : Option (Nat × Nat × Nat) :=
  match d12then (fun c => c == '.') cs with
  | none => none
  | some (d, r1) =>
      match d12then (fun c => c == '.') r1 with
      | none => none
      | some (m, r2) =>
          match d4 r2 with
          | none => none
          | some (y, _) => some (y, m, d)

/-- `re.search`: the match at the leftmost position where one exists. -/
def searchPat (f : List Char → Option (Nat × Nat × Nat)) : List Char → Option (Nat × Nat × Nat)
  | [] => none
  | c :: cs =>
      match f (c :: cs) with
      | some r => some r
      | none => searchPat f cs

def isLeap (y : Nat) : Bool := (y % 4 == 0 && y % 100 != 0) || y % 400 == 0

def daysInMonth (y m : Nat) : Nat :=
  if m == 2 then (if isLeap y then 29 else 28)
  else if m == 4 || m == 6 || m == 9 || m == 11 then 30
  else 31

def dateTripleLe (y1 m1 d1 y2 m2 d2 : Nat) : Bool :=
  decide (y1 < y2) || (y1 == y2 && (decide (m1 < m2) || (m1 == m2 && decide (d1 ≤ d2))))

/-- `pd.to_datetime` raises OutOfBoundsDatetime outside the pandas Timestamp
range; a midnight date is in bounds iff 1677-09-22 ≤ date ≤ 2262-04-11. -/
def inTimestampBounds (y m d : Nat) : Bool :=
  dateTripleLe 1677 9 22 y m d && dateTripleLe y m d 2262 4 11

/-- The validation performed by `pd.to_datetime(date_str)`: a real Gregorian
calendar date within the Timestamp bounds; on failure the bare `except`
continues with the next pattern. -/
def validDate (y m d : Nat) : Bool :=
  decide (1 ≤ m) && decide (m ≤ 12) && decide (1 ≤ d) && decide (d ≤ daysInMonth y m)
    && inTimestampBounds y m d

def validated (r : Option (Nat × Nat × Nat)) : Option (Nat × Nat × Nat) :=
  match r with
  | some (y, m, d) => if validDate y m d then some (y, m, d) else none
  | none => none

/-- The pattern loop of `extract_dob` (src/preprocess_data.py lines 33-58):
for each pattern in order, take its leftmost match and return it if it
validates; a pattern that does not match, or whose match fails validation,
falls through to the next pattern. -/
def findValidDate (cs : List Char) : Option (Nat × Nat × Nat) :=
  match validated (searchPat matchP1At cs) with
  | some r => some r
  | none =>
      match validated (searchPat matchP2At cs) with
      | some r => some r
      | none => validated (searchPat matchP3At cs)

def pad2 (n : Nat) : String := if n < 10 then "0" ++ toString n else toString n

def pad4 (n : Nat) : String :=
  if n < 10 then "000" ++ toString n
  else if n < 100 then "00" ++ toString n
  else if n < 1000 then "0" ++ toString n
  else toString n

/-- `strftime('%Y-%m-%d')`: zero-padded YYYY-MM-DD output. -/
def fmtDate (y m d : Nat) : String := pad4 y ++ "-" ++ pad2 m ++ "-" ++ pad2 d

/-- `extract_dob` (src/preprocess_data.py lines 10-60). -/
def extract_dob (v : PyVal) : Option String :=
  match v with
  | .pystr s =>
      match findValidDate s.data with
      | some (y, m, d) => some (fmtDate y m d)
      | none => none
  | _ => none

theorem validated_valid {r : Option (Nat × Nat × Nat)} {y m d : Nat}
    (h : validated r = some (y, m, d)) : validDate y m d = true := by
  match r with
  | none => simp [validated] at h
  | some (y', m', d') =>
      rw [validated] at h
      by_cases hv : validDate y' m' d' = true
      · rw [if_pos hv] at h
        cases h
        exact hv
      · rw [if_neg hv] at h
        cases h

theorem findValidDate_valid (cs : List Char) (y m d : Nat)
    (h : findValidDate cs = some (y, m, d)) : validDate y m d = true := by
  rw [findValidDate] at h
  cases h1 : validated (searchPat matchP1At cs) with
  | some r =>
      rw [h1] at h
      cases h
      exact validated_valid h1
  | none =>
      rw [h1] at h
      cases h2 : validated (searchPat matchP2At cs) with
      | some r =>
          rw [h2] at h
          cases h
          exact validated_valid h2
      | none =>
          rw [h2] at h
          exact validated_valid h

theorem daysInMonth_le (y m : Nat) : daysInMonth y m ≤ 31 := by
  unfold daysInMonth
  split_ifs <;> omega

theorem validDate_bounds {y m d : Nat} (h : validDate y m d = true) :
    1 ≤ m ∧ m ≤ 12 ∧ 1 ≤ d ∧ d ≤ 31 ∧ 1677 ≤ y ∧ y ≤ 2262 := by
  simp only [validDate, inTimestampBounds, dateTripleLe, Bool.and_eq_true, Bool.or_eq_true,
    decide_eq_true_eq, beq_iff_eq] at h
  obtain ⟨⟨⟨⟨h1, h2⟩, h3⟩, h4⟩, h5, h6⟩ := h
  have hd31 : d ≤ 31 := h4.trans (daysInMonth_le y m)
  refine ⟨h1, h2, h3, hd31, ?_, ?_⟩ <;> omega

/-- C9: `extract_dob` is total over scalar cell values — None, NaN, numbers
and arbitrary strings — returning either `none` or a zero-padded calendar
date string produced by `fmtDate` with month 1..12, day 1..31 and year within
the pandas Timestamp range; it accepts the forms YYYY/MM/DD, YYYY-MM-DD and
DD.MM.YYYY, plain, parenthesized, or embedded in surrounding text such as
"37 (1987/05/22)". -/
theorem extract_dob_safe (v : PyVal) :
    (extract_dob v = none
      ∨ ∃ y m d, extract_dob v = some (fmtDate y m d)
          ∧ 1 ≤ m ∧ m ≤ 12 ∧ 1 ≤ d ∧ d ≤ 31 ∧ 1677 ≤ y ∧ y ≤ 2262)
    ∧ extract_dob PyVal.pynone = none
    ∧ extract_dob PyVal.pynan = none
    ∧ (∀ q : ℚ, extract_dob (PyVal.pynum q) = none)
    ∧ extract_dob (PyVal.pystr "37 (1987/05/22)") = some "1987-05-22"
    ∧ extract_dob (PyVal.pystr "1987/05/22") = some "1987-05-22"
    ∧ extract_dob (PyVal.pystr "1987-05-22") = some "1987-05-22"
    ∧ extract_dob (PyVal.pystr "22.05.1987") = some "1987-05-22"
    ∧ extract_dob (PyVal.pystr "(22.05.1987)") = some "1987-05-22"
    ∧ extract_dob (PyVal.pystr "born 1987/5/2 in X") = some "1987-05-02"
    ∧ extract_dob (PyVal.pystr "no date here") = none := by
  refine ⟨?_, rfl, rfl, fun q => rfl, by decide, by decide, by decide, by decide, by decide,
    by decide, by decide⟩
  cases v with
  | pynone => exact Or.inl rfl
  | pynan => exact Or.inl rfl
  | pynum q => exact Or.inl rfl
  | pystr s =>
      cases h : findValidDate s.data with
      | none =>
          refine Or.inl ?_
          simp [extract_dob, h]
      | some t =>
          obtain ⟨y, m, d⟩ := t
          rcases validDate_bounds (findValidDate_valid s.data y m d h) with
            ⟨b1, b2, b3, b4, b5, b6⟩
          exact Or.inr ⟨y, m, d, by simp [extract_dob, h], b1, b2, b3, b4, b5, b6⟩

/-! ## Python difflib, as invoked by the reconciliation code
(src/atp_scraper.py map_and_combine_raw_files uses
`difflib.get_close_matches(key, keys, n=1, cutoff=0.85)`)

`SequenceMatcher` with no junk (names are far below the 200-character
autojunk threshold): `find_longest_match` is the classic dynamic program over
rows of the first sequence — `j2len` maps a position in `b` to the length of
the longest common run ending there — keeping the first longest block
(smallest start in `a`, then in `b`; with no junk the two junk-extension
loops are no-ops).  `get_matching_blocks` recurses on both sides of that
block; only the total matched size matters for the ratio
2*M/(len(a)+len(b)). -/

structure Blk where
  bi : Nat
  bj : Nat
  bk : Nat
deriving DecidableEq, Repr

/-- The positions of character `c` in `b` restricted to [blo, bhi), ascending
(the `b2j` table filtered by the while-loop bounds). -/
def charPositions (c : Char) (b : List Char) (blo bhi : Nat) : List Nat :=
  (List.range b.length).filter
    (fun j => decide (blo ≤ j) && decide (j < bhi) && (b.getD j ' ' == c))

def find_longest_match (a b : List Char) (alo ahi blo bhi : Nat) : Blk :=
  ((List.range' alo (ahi - alo)).foldl (fun (st : (Nat → Nat) × Blk) (i : Nat) =>
    (charPositions (a.getD i ' ') b blo bhi).foldl
      (fun (st2 : (Nat → Nat) × Blk) (j : Nat) =>
        ((fun x => if x = j then (if j = 0 then 0 else st.1 (j - 1)) + 1 else st2.1 x),
         if (if j = 0 then 0 else st.1 (j - 1)) + 1 > st2.2.bk then
           Blk.mk (i + 1 - ((if j = 0 then 0 else st.1 (j - 1)) + 1))
             (j + 1 - ((if j = 0 then 0 else st.1 (j - 1)) + 1))
             ((if j = 0 then 0 else st.1 (j - 1)) + 1)
         else st2.2))
      ((fun _ => 0), st.2))
    ((fun _ => 0), Blk.mk alo blo 0)).2

/-- The total size of all matching blocks (the recursion of
`get_matching_blocks`, fuelled; the fuel `len a + len b + 1` bounds the
recursion depth since each side strictly shrinks). -/
def matchTotalFuel : Nat → List Char → List Char → Nat → Nat → Nat → Nat → Nat
  | 0, _, _, _, _, _, _ => 0
  | fuel + 1, a, b, alo, ahi, blo, bhi =>
      if (find_longest_match a b alo ahi blo bhi).bk = 0 then 0
      else (find_longest_match a b alo ahi blo bhi).bk
        + matchTotalFuel fuel a b alo (find_longest_match a b alo ahi blo bhi).bi
            blo (find_longest_match a b alo ahi blo bhi).bj
        + matchTotalFuel fuel a b
            ((find_longest_match a b alo ahi blo bhi).bi
              + (find_longest_match a b alo ahi blo bhi).bk)
            ahi
            ((find_longest_match a b alo ahi blo bhi).bj
              + (find_longest_match a b alo ahi blo bhi).bk)
            bhi

def matchTotal (a b : List Char) : Nat :=
  matchTotalFuel (a.length + b.length + 1) a b 0 a.length 0 b.length

/-- The ratio 2*M/T as an exact fraction (numerator, positive denominator);
`_calculate_ratio` returns 1.0 when both sequences are empty. -/
def ratioPair (a b : List Char) : Nat × Nat :=
  if a.length + b.length = 0 then (1, 1) else (2 * matchTotal a b, a.length + b.length)

def pairQ (p : Nat × Nat) : ℚ := (p.1 : ℚ) / (p.2 : ℚ)

/-- `SequenceMatcher(None, a, b).ratio()` as a rational number. -/
def seqRatio (a b : List Char) : ℚ := pairQ (ratioPair a b)

theorem ratioPair_den_pos (a b : List Char) : 0 < (ratioPair a b).2 := by
  unfold ratioPair
  split_ifs with h
  · simp
  · simp
    omega

theorem ratioLt_iff (p q : Nat × Nat) (hp : 0 < p.2) (hq : 0 < q.2) :
    (decide (p.1 * q.2 < q.1 * p.2) = true) ↔ pairQ p < pairQ q := by
  rw [decide_eq_true_eq, pairQ, pairQ,
    div_lt_div_iff (by exact_mod_cast hp) (by exact_mod_cast hq)]
  exact_mod_cast Iff.rfl

theorem ratioEq_iff (p q : Nat × Nat) (hp : 0 < p.2) (hq : 0 < q.2) :
    (decide (p.1 * q.2 = q.1 * p.2) = true) ↔ pairQ p = pairQ q := by
  rw [decide_eq_true_eq, pairQ, pairQ,
    div_eq_div_iff (by exact_mod_cast hp.ne' : ((p.2 : ℚ)) ≠ 0)
      (by exact_mod_cast hq.ne' : ((q.2 : ℚ)) ≠ 0)]
  exact_mod_cast Iff.rfl

/-- The cutoff test `ratio >= 0.85` of `get_close_matches`, by cross
multiplication against 17/20. -/
def cutoffB (word x : List Char) : Bool :=
  decide (17 * (ratioPair x word).2 ≤ 20 * (ratioPair x word).1)

theorem cutoffB_iff (word x : List Char) :
    cutoffB word x = true ↔ (17 / 20 : ℚ) ≤ seqRatio x word := by
  rw [cutoffB, decide_eq_true_eq, seqRatio, pairQ,
    div_le_div_iff (by norm_num) (by exact_mod_cast ratioPair_den_pos x word)]
  rw [mul_comm (((ratioPair x word).1 : ℚ)) 20]
  exact_mod_cast Iff.rfl

/-- The selection order of `heapq.nlargest(n, [(ratio, x), ...])`: candidate
`x` beats the current best `b` when its ratio is strictly larger, or the
ratios are equal and `x` is the larger string (tuples compare
lexicographically; Python compares strings by code points, which is the
lexicographic order `List.Lex` on the character lists). -/
def betterB (word x b : List Char) : Bool :=
  decide ((ratioPair b word).1 * (ratioPair x word).2
      < (ratioPair x word).1 * (ratioPair b word).2)
    || (decide ((ratioPair b word).1 * (ratioPair x word).2
          = (ratioPair x word).1 * (ratioPair b word).2)
        && decide (List.Lex (· < ·) b x))

theorem betterB_iff (word x b : List Char) :
    betterB word x b = true ↔
      (seqRatio b word < seqRatio x word
        ∨ (seqRatio b word = seqRatio x word ∧ List.Lex (· < ·) b x)) := by
  rw [betterB, Bool.or_eq_true, Bool.and_eq_true, seqRatio, seqRatio,
    ratioLt_iff _ _ (ratioPair_den_pos b word) (ratioPair_den_pos x word),
    ratioEq_iff _ _ (ratioPair_den_pos b word) (ratioPair_den_pos x word), decide_eq_true_eq]

theorem betterB_eq_false_iff (word x b : List Char) :
    betterB word x b = false ↔
      (seqRatio x word < seqRatio b word
        ∨ (seqRatio b word = seqRatio x word ∧ ¬ List.Lex (· < ·) b x)) := by
  simp only [Bool.eq_false_iff, ne_eq, betterB_iff, not_or, not_and]
  constructor
  · rintro ⟨h1, h2⟩
    rcases lt_trichotomy (seqRatio x word) (seqRatio b word) with h | h | h
    · exact Or.inl h
    · exact Or.inr ⟨h.symm, h2 h.symm⟩
    · exact absurd h h1
  · rintro (h | ⟨h1, h2⟩)
    · exact ⟨asymm h, fun he => absurd (he ▸ h) (lt_irrefl _)⟩
    · exact ⟨fun hc => absurd hc (h1 ▸ lt_irrefl _), fun _ => h2⟩

theorem betterB_irrefl (word b : List Char) : betterB word b b = false := by
  rw [betterB_eq_false_iff]
  exact Or.inr ⟨rfl, irrefl_of (List.Lex (· < ·)) b⟩

theorem betterB_asymm (word x b : List Char) (h : betterB word x b = true) :
    betterB word b x = false := by
  rw [betterB_iff] at h
  rw [betterB_eq_false_iff]
  rcases h with h | ⟨h1, h2⟩
  · exact Or.inl h
  · exact Or.inr ⟨h1.symm, asymm_of (List.Lex (· < ·)) h2⟩

theorem notBetter_trans (word x y z : List Char)
    (h1 : betterB word x y = false) (h2 : betterB word y z = false) :
    betterB word x z = false := by
  rw [betterB_eq_false_iff] at h1 h2 ⊢
  rcases h1 with h1 | ⟨h1e, h1s⟩ <;> rcases h2 with h2 | ⟨h2e, h2s⟩
  · exact Or.inl (h1.trans h2)
  · exact Or.inl (h2e ▸ h1)
  · exact Or.inl (h1e ▸ h2)
  · refine Or.inr ⟨h2e.trans h1e, fun hc => ?_⟩
    have htri : List.Lex (· < ·) z y ∨ z = y ∨ List.Lex (· < ·) y z :=
      trichotomous_of (List.Lex (· < ·)) z y
    rcases htri with hzy | hzy | hzy
    · exact h2s hzy
    · exact h1s (hzy ▸ hc)
    · exact h1s (trans_of (List.Lex (· < ·)) hzy hc)

/-- One step of the best-candidate selection of `get_close_matches(..., n=1)`:
keep the better of the current best and the next scored candidate. -/
def chooseStep (word : List Char) (acc : Option (List Char)) (x : List Char) :
    Option (List Char) :=
  match acc with
  | none => some x
  | some b => if betterB word x b then some x else some b

theorem chooseStep_none (word x : List Char) : chooseStep word none x = some x := rfl

theorem chooseStep_some (word b x : List Char) :
    chooseStep word (some b) x = if betterB word x b then some x else some b := rfl

def chooseBest (word : List Char) (l : List (List Char)) (init : Option (List Char)) :
    Option (List Char) :=
  l.foldl (chooseStep word) init

theorem chooseStep_cases (word : List Char) (init : Option (List Char)) (x b0 : List Char)
    (h0 : chooseStep word init x = some b0) :
    (b0 = x ∨ init = some b0)
    ∧ betterB word x b0 = false
    ∧ (∀ bi, init = some bi → betterB word bi b0 = false) := by
  cases init with
  | none =>
      rw [chooseStep_none] at h0
      injection h0 with hx
      subst hx
      exact ⟨Or.inl rfl, betterB_irrefl word x, fun bi hbi => by cases hbi⟩
  | some bo =>
      rw [chooseStep_some] at h0
      by_cases hb : betterB word x bo = true
      · rw [if_pos hb] at h0
        injection h0 with hx
        subst hx
        refine ⟨Or.inl rfl, betterB_irrefl word x, fun bi hbi => ?_⟩
        injection hbi with hbo
        subst hbo
        exact betterB_asymm word x bo hb
      · rw [if_neg hb] at h0
        injection h0 with hx
        subst hx
        refine ⟨Or.inr rfl, Bool.eq_false_iff.mpr hb, fun bi hbi => ?_⟩
        injection hbi with hbo
        subst hbo
        exact betterB_irrefl word bo

theorem chooseStep_isSome (word : List Char) (init : Option (List Char)) (x : List Char) :
    (chooseStep word init x).isSome = true := by
  cases init with
  | none => rw [chooseStep_none]; rfl
  | some bo =>
      rw [chooseStep_some]
      by_cases hb : betterB word x bo = true
      · rw [if_pos hb]; rfl
      · rw [if_neg hb]; rfl

theorem chooseBest_spec (word : List Char) :
    ∀ (l : List (List Char)) (init : Option (List Char)) (b : List Char),
      chooseBest word l init = some b →
      (b ∈ l ∨ init = some b)
      ∧ (∀ k ∈ l, betterB word k b = false)
      ∧ (∀ b0, init = some b0 → betterB word b0 b = false) := by
  intro l
  induction l with
  | nil =>
      intro init b h
      rw [chooseBest, List.foldl_nil] at h
      refine ⟨Or.inr h, by simp, fun b0 h0 => ?_⟩
      rw [h0] at h
      cases h
      exact betterB_irrefl word b
  | cons x xs ih =>
      intro init b h
      rw [chooseBest, List.foldl_cons] at h
      cases h0 : chooseStep word init x with
      | none => exact absurd (congrArg Option.isSome h0) (by simp [chooseStep_isSome])
      | some b0 =>
          rw [h0] at h
          have hrec := ih (some b0) b h
          obtain ⟨hs1, hs2, hs3⟩ := chooseStep_cases word init x b0 h0
          have hb0b : betterB word b0 b = false := hrec.2.2 b0 rfl
          refine ⟨?_, ?_, ?_⟩
          · rcases hrec.1 with hmem | hinit
            · exact Or.inl (List.mem_cons_of_mem _ hmem)
            · cases hinit
              rcases hs1 with rfl | h2
              · exact Or.inl (List.mem_cons_self _ _)
              · exact Or.inr h2
          · intro k hk
            rcases List.mem_cons.mp hk with rfl | hk2
            · exact notBetter_trans word k b0 b hs2 hb0b
            · exact hrec.2.1 k hk2
          · intro bi hbi
            exact notBetter_trans word bi b0 b (hs3 bi hbi) hb0b

/-- `difflib.get_close_matches(word, keys, n=1, cutoff=0.85)` restricted to
its first result: among the candidates with ratio at least the cutoff, the one
with the lexicographically largest (ratio, string) pair — `heapq.nlargest`
over the scored tuples — or none when no candidate reaches the cutoff.
(The internal `real_quick_ratio`/`quick_ratio` pre-filters are upper bounds of
`ratio` and do not change the accepted set.) -/
def get_close_matches1 (word : List Char) (keys : List (List Char)) : Option (List Char) :=
  chooseBest word (keys.filter (cutoffB word)) none

/-! ## Reconciliation engine (src/atp_scraper.py) -/

/-- Python `str.lower()` (ASCII granularity). -/
def pyLower (cs : List Char) : List Char := cs.map Char.toLower

def isPySpace (c : Char) : Bool :=
  c == ' ' || c == '\t' || c == '\n' || c == '\r' || c == '\x0b' || c == '\x0c'

/-- Python `str.strip()`: drop whitespace from both ends. -/
def pyStrip (cs : List Char) : List Char :=
  ((cs.dropWhile isPySpace).reverse.dropWhile isPySpace).reverse

/-- The normalization applied by the code to both the known full names and the
incoming display names: `.strip().lower()` — ends stripped and case-folded,
internal whitespace untouched. -/
def pyNormalize (s : String) : List Char := pyLower (pyStrip s.data)

/-- The claim's stage-2 normalization additionally collapses internal
whitespace runs to single spaces; this is the spec-words variant used to
compare against the code. -/
def collapseGo : Bool → List Char → List Char
  | _, [] => []
  | prevSpace, c :: cs =>
      if isPySpace c then
        (if prevSpace then collapseGo true cs else ' ' :: collapseGo true cs)
      else c :: collapseGo false cs

def collapseWS (cs : List Char) : List Char := collapseGo false cs

/-- One row of the players reference table (`players_df` of
`build_player_name_id_map`, src/atp_scraper.py lines 9-13). -/
structure PlayerRec where
  first_name : String
  last_name : String
  player_id : Int
deriving DecidableEq, Repr

/-- `build_player_name_id_map`: the dict from normalized full name
(first + " " + last, stripped, lowercased) to player_id.  Represented as the
association list in row order; a dict lookup returns the LAST binding of a
key (later duplicates overwrite), and the key list enumerates first
occurrences. -/
def build_player_name_id_map (players : List PlayerRec) : List (List Char × Int) :=
  players.map (fun p => (pyNormalize (p.first_name ++ " " ++ p.last_name), p.player_id))

def dictLookup (m : List (List Char × Int)) (k : List Char) : Option Int :=
  match m.reverse.find? (fun pr => pr.1 == k) with
  | some pr => some pr.2
  | none => none

def dedupFirstGo {α : Type} [DecidableEq α] : List α → List α → List α
  | _, [] => []
  | seen, x :: xs =>
      if x ∈ seen then dedupFirstGo seen xs else x :: dedupFirstGo (x :: seen) xs

def dedupFirst {α : Type} [DecidableEq α] (l : List α) : List α := dedupFirstGo [] l

def dictKeys (m : List (List Char × Int)) : List (List Char) := dedupFirst (m.map Prod.fst)

/-- The per-name resolution of `map_and_combine_raw_files`
(src/atp_scraper.py lines 26-34): exact lookup of the normalized name first;
otherwise `difflib.get_close_matches(key, keys, n=1, cutoff=0.85)` and the id
of the best match; otherwise unresolved (the empty id, modelled as `none`). -/
def resolve_name (m : List (List Char × Int)) (name : String) : Option Int :=
  match dictLookup m (pyNormalize name) with
  | some pid => some pid
  | none =>
      match get_close_matches1 (pyNormalize name) (dictKeys m) with
      | some best => dictLookup m best
      | none => none

/-- The resolution procedure as the claim words it: identical except that the
stage-2 exact match uses the case-folded, whitespace-collapsed name. -/
def resolve_name_claim (m : List (List Char × Int)) (name : String) : Option Int :=
  match dictLookup m (collapseWS (pyNormalize name)) with
  | some pid => some pid
  | none =>
      match get_close_matches1 (collapseWS (pyNormalize name)) (dictKeys m) with
      | some best => dictLookup m best
      | none => none

theorem dedupFirstGo_mem {α : Type} [DecidableEq α] (l : List α) :
    ∀ (seen : List α) (x : α), x ∈ dedupFirstGo seen l ↔ x ∈ l ∧ x ∉ seen := by
  induction l with
  | nil =>
      intro seen x
      simp [dedupFirstGo]
  | cons y ys ih =>
      intro seen x
      rw [dedupFirstGo]
      by_cases hy : y ∈ seen
      · rw [if_pos hy, ih]
        constructor
        · rintro ⟨h1, h2⟩
          exact ⟨List.mem_cons_of_mem _ h1, h2⟩
        · rintro ⟨h1, h2⟩
          rcases List.mem_cons.mp h1 with rfl | h3
          · exact absurd hy h2
          · exact ⟨h3, h2⟩
      · rw [if_neg hy]
        by_cases hxy : x = y
        · subst hxy
          simp [hy]
        · simp only [List.mem_cons, ih, List.mem_cons]
          constructor
          · rintro (h | ⟨h1, h2⟩)
            · exact absurd h hxy
            · exact ⟨Or.inr h1, fun hc => h2 (Or.inr hc)⟩
          · rintro ⟨h1, h2⟩
            rcases h1 with rfl | h1
            · exact absurd rfl hxy
            · refine Or.inr ⟨h1, fun hc => ?_⟩
              rcases hc with rfl | hc2
              · exact hxy rfl
              · exact h2 hc2

theorem dictKeys_sub (m : List (List Char × Int)) (k : List Char)
    (hk : k ∈ dictKeys m) : k ∈ m.map Prod.fst := by
  rw [dictKeys, dedupFirst, dedupFirstGo_mem] at hk
  exact hk.1

theorem dictLookup_isSome (m : List (List Char × Int)) (k : List Char)
    (hk : k ∈ m.map Prod.fst) : (dictLookup m k).isSome = true := by
  rw [dictLookup]
  cases hf : m.reverse.find? (fun pr => pr.1 == k) with
  | some pr => rfl
  | none =>
      exfalso
      rcases List.mem_map.mp hk with ⟨pr, hpr, hfst⟩
      have hnone := List.find?_eq_none.mp hf pr (List.mem_reverse.mpr hpr)
      rw [hfst] at hnone
      simp at hnone

/-- C3 counterexample: with known full names "a b" (player 1; first name "a",
last name "b") and "a  bz" (player 2; first name "a " with a trailing space,
last name "bz"), the rankings row with display name "a  b" has a
case-folded, whitespace-collapsed normalization exactly equal to player 1's
known name "a b" — so the claim's exact-match stage resolves it to player 1
(`resolve_name_claim`) — yet the code (`resolve_name`), which strips but does
not collapse internal whitespace, finds no exact match and falls through to
difflib, where "a  bz" scores 8/9 against "a b"'s 6/7, resolving the row to
player 2. -/
theorem reconciliation_exact_not_collapsed :
    resolve_name (build_player_name_id_map
        [PlayerRec.mk "a" "b" 1, PlayerRec.mk "a " "bz" 2]) "a  b" = some 2
    ∧ resolve_name_claim (build_player_name_id_map
        [PlayerRec.mk "a" "b" 1, PlayerRec.mk "a " "bz" 2]) "a  b" = some 1
    ∧ collapseWS (pyNormalize "a  b") = "a b".data
    ∧ dictLookup (build_player_name_id_map
        [PlayerRec.mk "a" "b" 1, PlayerRec.mk "a " "bz" 2]) ("a b".data) = some 1 := by
  decide

/-- C3 (amended): player-identity resolution follows the priority order — a
row carrying a URL-derived player ID resolves directly to that ID with no
name matching (the preprocessing pipeline carries `atp_id` through
untouched); a row with only a display name is resolved by exact match of the
case-folded, end-stripped (but not internally whitespace-collapsed) name
against the known full names; failing that, by approximate matching accepting
only the single best match — highest ratio, largest string on ties — with
similarity at or above the 0.85 threshold; failing that, the row is
unresolved. -/
theorem reconciliation_priority_amended :
    (∀ r : PreRow, (preprocessRankRow r).atp_id = r.atp_id)
    ∧ (∀ (m : List (List Char × Int)) (name : String) (pid : Int),
        dictLookup m (pyNormalize name) = some pid → resolve_name m name = some pid)
    ∧ (∀ (m : List (List Char × Int)) (name : String),
        dictLookup m (pyNormalize name) = none →
        (∀ k ∈ dictKeys m, seqRatio k (pyNormalize name) < 17 / 20) →
        resolve_name m name = none)
    ∧ (∀ (m : List (List Char × Int)) (name : String) (best : List Char),
        dictLookup m (pyNormalize name) = none →
        get_close_matches1 (pyNormalize name) (dictKeys m) = some best →
        best ∈ dictKeys m
        ∧ (17 / 20 : ℚ) ≤ seqRatio best (pyNormalize name)
        ∧ (∀ k ∈ dictKeys m, (17 / 20 : ℚ) ≤ seqRatio k (pyNormalize name) →
            (seqRatio k (pyNormalize name) < seqRatio best (pyNormalize name)
              ∨ (seqRatio best (pyNormalize name) = seqRatio k (pyNormalize name)
                  ∧ ¬ List.Lex (· < ·) best k)))
        ∧ resolve_name m name = dictLookup m best
        ∧ (dictLookup m best).isSome = true) := by
  refine ⟨fun r => rfl, ?_, ?_, ?_⟩
  · intro m name pid h
    rw [resolve_name, h]
  · intro m name h1 h2
    rw [resolve_name, h1]
    have hfil : (dictKeys m).filter (cutoffB (pyNormalize name)) = [] := by
      rw [List.filter_eq_nil]
      intro k hk
      intro hcut
      exact absurd ((cutoffB_iff (pyNormalize name) k).mp hcut) (not_le.mpr (h2 k hk))
    rw [get_close_matches1, hfil]
    rfl
  · intro m name best h1 h2
    rw [get_close_matches1] at h2
    obtain ⟨hmem, hmax, _⟩ := chooseBest_spec (pyNormalize name) _ none best h2
    have hbf : best ∈ (dictKeys m).filter (cutoffB (pyNormalize name)) := by
      rcases hmem with h | h
      · exact h
      · cases h
    rcases List.mem_filter.mp hbf with ⟨hbk, hbc⟩
    refine ⟨hbk, (cutoffB_iff _ _).mp hbc, ?_, ?_, ?_⟩
    · intro k hk hkc
      have hkf : k ∈ (dictKeys m).filter (cutoffB (pyNormalize name)) :=
        List.mem_filter.mpr ⟨hk, (cutoffB_iff _ _).mpr hkc⟩
      have := hmax k hkf
      rw [betterB_eq_false_iff] at this
      exact this
    · rw [resolve_name, h1, get_close_matches1, h2]
    · exact dictLookup_isSome m best (dictKeys_sub m best hbk)

/-- Witness for `reconciliation_priority_amended`: the exact-match stage at a
one-player table. -/
theorem reconciliation_priority_amended_witness :
    dictLookup (build_player_name_id_map [PlayerRec.mk "Jane" "Roe" 7])
        (pyNormalize " JANE ROE ") = some 7
    ∧ resolve_name (build_player_name_id_map [PlayerRec.mk "Jane" "Roe" 7])
        " JANE ROE " = some 7 :=
  ⟨by decide,
    reconciliation_priority_amended.2.1 (build_player_name_id_map
      [PlayerRec.mk "Jane" "Roe" 7]) " JANE ROE " 7 (by decide)⟩

/-! ## Unresolved rows are kept and recorded
(src/atp_scraper.py map_and_combine_raw_files lines 35-47) -/

/-- One row of the concatenated raw rankings files (columns Player, Rank,
Points, ranking_date). -/
structure RawRankRow where
  player : String
  rankStr : String
  pointsStr : String
  ranking_date : Int
deriving DecidableEq, Repr

/-- One row of the combined output CSV (columns ranking_date, rank,
player_id, points); the player_id cell carries the resolved integer id, or
the empty string for an unresolved player (modelled as `none`). -/
structure OutRankRow where
  ranking_date : Int
  rank : Int
  player_id : Option Int
  points : Int
deriving DecidableEq, Repr

/-- `pd.to_numeric(s, errors='coerce').fillna(0).astype(int)`. -/
def toNumericOr0 (s : String) : Int := ((parseDigits s.data).getD 0 : Int)

/-- `map_and_combine_raw_files` after reading the raw files: every raw row is
written to the combined output with its resolved player id (empty when
unresolved), and the distinct display names (first-occurrence order) whose
resolution failed form the separately saved side list
(data/atp_players_new.csv). -/
def map_and_combine (m : List (List Char × Int)) (raw : List RawRankRow) :
    List OutRankRow × List String :=
  (raw.map (fun r =>
    { ranking_date := r.ranking_date
      rank := toNumericOr0 r.rankStr
      player_id := resolve_name m r.player
      points := toNumericOr0 r.pointsStr }),
   (dedupFirst (raw.map RawRankRow.player)).filter
     (fun n => (resolve_name m n).isNone))

/-- C7: no ranking data is lost and no unresolved name is silently dropped —
the combined output has exactly one row per raw row, carrying the raw row's
date, cleaned rank and points and its resolved player id; every row whose
player cannot be resolved is still written (with the empty player id) and its
display name appears in the separately persisted side list; and the side list
holds exactly the distinct raw display names whose resolution failed. -/
theorem unresolved_rows_preserved (m : List (List Char × Int)) (raw : List RawRankRow) :
    ((map_and_combine m raw).1.length = raw.length)
    ∧ (∀ pr ∈ (map_and_combine m raw).1.zip raw,
        pr.1.ranking_date = pr.2.ranking_date
        ∧ pr.1.rank = toNumericOr0 pr.2.rankStr
        ∧ pr.1.points = toNumericOr0 pr.2.pointsStr
        ∧ pr.1.player_id = resolve_name m pr.2.player
        ∧ (resolve_name m pr.2.player = none →
            pr.1.player_id = none ∧ pr.2.player ∈ (map_and_combine m raw).2))
    ∧ (∀ n, n ∈ (map_and_combine m raw).2 ↔
        (n ∈ raw.map RawRankRow.player ∧ resolve_name m n = none)) := by
  have hside : ∀ n, n ∈ (map_and_combine m raw).2 ↔
      (n ∈ raw.map RawRankRow.player ∧ resolve_name m n = none) := by
    intro n
    rw [map_and_combine]
    rw [List.mem_filter, dedupFirst, dedupFirstGo_mem]
    simp [Option.isNone_iff_eq_none]
  refine ⟨by rw [map_and_combine]; exact List.length_map _ _, ?_, hside⟩
  intro pr hpr
  have hzip : (map_and_combine m raw).1.zip raw
      = raw.map (fun r =>
          (OutRankRow.mk r.ranking_date (toNumericOr0 r.rankStr) (resolve_name m r.player)
            (toNumericOr0 r.pointsStr), r)) := by
    rw [map_and_combine]
    calc (raw.map _).zip raw
        = (raw.map _).zip (raw.map id) := by rw [List.map_id]
      _ = raw.map _ := List.zip_map' _ id raw
  rw [hzip] at hpr
  rcases List.mem_map.mp hpr with ⟨r, hr, hpr2⟩
  subst hpr2
  refine ⟨rfl, rfl, rfl, rfl, fun hnone => ⟨hnone, ?_⟩⟩
  exact (hside r.player).mpr ⟨List.mem_map.mpr ⟨r, hr, rfl⟩, hnone⟩

/-- Witness for `unresolved_rows_preserved` at a one-row frame whose player
is unknown to an empty reference table. -/
theorem unresolved_rows_preserved_witness :
    (OutRankRow.mk 5 3 none 10, RawRankRow.mk "Zzq Qz" "3" "10" 5)
        ∈ ((map_and_combine [] [RawRankRow.mk "Zzq Qz" "3" "10" 5]).1.zip
            [RawRankRow.mk "Zzq Qz" "3" "10" 5])
    ∧ ((OutRankRow.mk 5 3 none 10).ranking_date = (RawRankRow.mk "Zzq Qz" "3" "10" 5).ranking_date
      ∧ (OutRankRow.mk 5 3 none 10).rank = toNumericOr0 (RawRankRow.mk "Zzq Qz" "3" "10" 5).rankStr
      ∧ (OutRankRow.mk 5 3 none 10).points
          = toNumericOr0 (RawRankRow.mk "Zzq Qz" "3" "10" 5).pointsStr
      ∧ (OutRankRow.mk 5 3 none 10).player_id
          = resolve_name [] (RawRankRow.mk "Zzq Qz" "3" "10" 5).player
      ∧ (resolve_name [] (RawRankRow.mk "Zzq Qz" "3" "10" 5).player = none →
          (OutRankRow.mk 5 3 none 10).player_id = none
          ∧ (RawRankRow.mk "Zzq Qz" "3" "10" 5).player
              ∈ (map_and_combine [] [RawRankRow.mk "Zzq Qz" "3" "10" 5]).2)) :=
  ⟨by decide,
    (unresolved_rows_preserved [] [RawRankRow.mk "Zzq Qz" "3" "10" 5]).2.1
      (OutRankRow.mk 5 3 none 10, RawRankRow.mk "Zzq Qz" "3" "10" 5) (by decide)⟩

end ATPRank
